import Mathlib

/-!
Verification of the companion socket bridge (src/companion.py) and the
playlist queue of this repository, as a shallow embedding in Lean.

Bytes are modelled as `Nat` (the newline byte is 10), byte strings as
`List Nat`, and the network as explicit streams: the chunks successive
`recv(1024)` calls return, and the byte counts successive `send` calls
report.  Python's `list` of buffered chunks is a Lean `List` with
`pop()` taking the last element.
-/

/-- First index of the newline byte 10 in a byte string; mirrors
Python's `chunk.index(b"\n")` (meaningful when 10 is present). -/
def idx10 : List Nat → Nat
  | [] => 0
  | b :: rest => if b = 10 then 0 else idx10 rest + 1

/-- Python's `str.split(sep)` for a single one-byte separator:
`"".split` gives `[""]`, consecutive separators give empty fields. -/
def splitOnByte (sep : Nat) : List Nat → List (List Nat)
  | [] => [[]]
  | b :: rest =>
    let r := splitOnByte sep rest
    if b = sep then [] :: r
    else
      match r with
      | t :: ts => (b :: t) :: ts
      | [] => [[b]]

/-- Outcome of `Server.receive_line`: a decoded line together with the
new leftover buffer and the unread remainder of the recv stream, a
`ConnectionBrokenException` (carrying the buffer state it leaves
behind), or blocking forever because the modelled stream ran out. -/
inductive ReceiveResult where
  | line (msg : List Nat) (buffer : List (List Nat)) (recvs : List (List Nat))
  | broken (buffer : List (List Nat)) (recvs : List (List Nat))
  | blocked
deriving DecidableEq, Repr

/-- The first `while` of `receive_line`: drain the buffered chunks,
popping from the end of the Python list (modelled by walking the
reversed buffer), accumulating into `chunks`, returning early when a
popped chunk contains a newline.  `.inl` is the early return (line,
new buffer); `.inr` is loop exit with the emptied buffer and the
accumulated chunks. -/
def drainRev (revBuf chunks : List (List Nat)) :
    (List Nat × List (List Nat)) ⊕ (List (List Nat) × List (List Nat)) :=
  match revBuf with
  | [] => .inr ([], chunks)
  | buffered :: revRest =>
    if 10 ∈ buffered then
      .inl ((chunks ++ [buffered.take (idx10 buffered)]).flatten,
            revRest.reverse ++ [buffered.drop (idx10 buffered + 1)])
    else drainRev revRest (chunks ++ [buffered])

/-- The second `while` of `receive_line`: read chunks from the socket
(the `recvs` stream) until one contains a newline; an empty chunk
raises `ConnectionBrokenException`. -/
def recvLoop (buffer chunks recvs : List (List Nat)) : ReceiveResult :=
  match recvs with
  | [] => .blocked
  | chunk :: rest =>
    if chunk = [] then .broken buffer rest
    else if 10 ∈ chunk then
      .line ((chunks ++ [chunk.take (idx10 chunk)]).flatten)
            (buffer ++ [chunk.drop (idx10 chunk + 1)]) rest
    else recvLoop buffer (chunks ++ [chunk]) rest

/-- `Server.receive_line`, as a function of the leftover buffer and the
stream of chunks the socket will deliver. -/
def receive_line (buffer recvs : List (List Nat)) : ReceiveResult :=
  match drainRev buffer.reverse [] with
  | .inl (msg, buf) => .line msg buf recvs
  | .inr (buf, chunks) => recvLoop buf chunks recvs

/-! ### Newline decomposition lemmas -/

theorem idx10_split (c : List Nat) (h : 10 ∈ c) :
    c.take (idx10 c) ++ 10 :: c.drop (idx10 c + 1) = c := by
  induction c with
  | nil => cases h
  | cons b rest ih =>
    by_cases hb : b = 10
    · subst hb; simp [idx10]
    · have hr : 10 ∈ rest := by
        cases List.mem_cons.mp h with
        | inl h1 => exact absurd h1.symm hb
        | inr h2 => exact h2
      simp [idx10, hb, ih hr]

theorem idx10_take_not_mem (c : List Nat) :
    10 ∉ c.take (idx10 c) := by
  induction c with
  | nil => simp
  | cons b rest ih =>
    by_cases hb : b = 10
    · subst hb; simp [idx10]
    · simp only [idx10, hb, if_false, List.take_succ_cons, List.mem_cons, not_or]
      exact ⟨fun h => hb h.symm, ih⟩

/-- Decomposing a byte string at its first newline is unique. -/
theorem nl_decomp_unique {msg1 rest1 msg2 rest2 : List Nat}
    (h1 : 10 ∉ msg1) (h2 : 10 ∉ msg2)
    (he : msg1 ++ 10 :: rest1 = msg2 ++ 10 :: rest2) :
    msg1 = msg2 ∧ rest1 = rest2 := by
  induction msg1 generalizing msg2 with
  | nil =>
    cases msg2 with
    | nil => simpa using he
    | cons b2 m2 =>
      simp only [List.nil_append, List.cons_append, List.cons.injEq] at he
      exact absurd (he.1 ▸ List.mem_cons_self 10 m2) (he.1 ▸ h2)
  | cons b1 m1 ih =>
    cases msg2 with
    | nil =>
      simp only [List.nil_append, List.cons_append, List.cons.injEq] at he
      exact absurd (List.mem_cons_self b1 m1) (he.1 ▸ h1)
    | cons b2 m2 =>
      simp only [List.cons_append, List.cons.injEq] at he
      have h1' : 10 ∉ m1 := fun hm => h1 (List.mem_cons_of_mem b1 hm)
      have h2' : 10 ∉ m2 := fun hm => h2 (List.mem_cons_of_mem b2 hm)
      obtain ⟨hm, hr⟩ := ih h1' h2' he.2
      exact ⟨by rw [he.1, hm], hr⟩

/-- If a chunk is the first-newline decomposition `msg ++ 10 :: rest`,
then `take (idx10 c)` and `drop (idx10 c + 1)` recover `msg` and
`rest`. -/
theorem idx10_take_drop_eq {c msg rest : List Nat}
    (hm : 10 ∉ msg) (hc : c = msg ++ 10 :: rest) :
    c.take (idx10 c) = msg ∧ c.drop (idx10 c + 1) = rest ∧ 10 ∈ c := by
  have hmem : 10 ∈ c := by
    rw [hc]; exact List.mem_append_right msg (List.mem_cons_self 10 rest)
  have hsplit := idx10_split c hmem
  have := nl_decomp_unique (idx10_take_not_mem c) hm (hsplit.trans hc)
  exact ⟨this.1, this.2, hmem⟩

/-! ### Correctness of the recv loop -/

/-- The recv loop of `receive_line` finds the first newline of the
stream: if the accumulated chunks so far contain none and the stream
(as a flat byte sequence) is `msg ++ 10 :: rest`, the loop returns
`msg` and leaves exactly `rest` split between the new leftover chunk
and the unread stream. -/
theorem recvLoop_line (recvs : List (List Nat)) :
    ∀ chunks bu msg rest,
    (∀ c ∈ recvs, c ≠ []) → 10 ∉ chunks.flatten →
    chunks.flatten ++ recvs.flatten = msg ++ 10 :: rest → 10 ∉ msg →
    ∃ d recvs', recvLoop bu chunks recvs = .line msg (bu ++ [d]) recvs' ∧
      d ++ recvs'.flatten = rest ∧ (∀ c ∈ recvs', c ≠ []) := by
  induction recvs with
  | nil =>
    intro chunks bu msg rest _ hnm hs hm
    exfalso
    apply hnm
    rw [List.flatten_nil, List.append_nil] at hs
    rw [hs]
    exact List.mem_append_right msg (List.mem_cons_self 10 rest)
  | cons c rest' ih =>
    intro chunks bu msg rest hne hnm hs hm
    have hc : c ≠ [] := hne c (List.mem_cons_self c rest')
    by_cases hmem : 10 ∈ c
    · -- the newline is inside this chunk
      obtain ⟨t, d, ht, hsplit⟩ :
          ∃ t d, 10 ∉ t ∧ c = t ++ 10 :: d :=
        ⟨c.take (idx10 c), c.drop (idx10 c + 1), idx10_take_not_mem c,
          (idx10_split c hmem).symm⟩
      have htd := idx10_take_drop_eq ht hsplit
      have hs' : (chunks.flatten ++ t) ++ 10 :: (d ++ rest'.flatten)
          = msg ++ 10 :: rest := by
        rw [← hs, List.flatten_cons]
        rw [hsplit]
        simp
      have hnmt : 10 ∉ chunks.flatten ++ t := by
        intro hx
        cases List.mem_append.mp hx with
        | inl h => exact hnm h
        | inr h => exact ht h
      obtain ⟨hmsg, hrest⟩ := nl_decomp_unique hnmt hm hs'
      refine ⟨d, rest', ?_, ?_, fun x hx => hne x (List.mem_cons_of_mem c hx)⟩
      · simp only [recvLoop, hc, if_false, hmem, if_true, htd.1, htd.2.1]
        rw [List.flatten_append, List.flatten_cons, List.flatten_nil,
          List.append_nil, hmsg]
      · exact hrest
    · -- no newline yet: the chunk joins the accumulator
      have hnm' : 10 ∉ (chunks ++ [c]).flatten := by
        intro hx
        rw [List.flatten_append, List.flatten_cons, List.flatten_nil,
          List.append_nil] at hx
        cases List.mem_append.mp hx with
        | inl h => exact hnm h
        | inr h => exact hmem h
      have hs' : (chunks ++ [c]).flatten ++ rest'.flatten = msg ++ 10 :: rest := by
        rw [List.flatten_append, List.flatten_cons, List.flatten_nil,
          List.append_nil, List.append_assoc, ← List.flatten_cons, hs]
      obtain ⟨d, recvs', h1, h2, h3⟩ :=
        ih (chunks ++ [c]) bu msg rest
          (fun x hx => hne x (List.mem_cons_of_mem c hx)) hnm' hs' hm
      refine ⟨d, recvs', ?_, h2, h3⟩
      simp only [recvLoop, hc, if_false, hmem, if_false]
      exact h1

/-- Framing correctness of `receive_line` over the reachable buffer
states (at most one leftover chunk): the first newline of the combined
buffered-plus-stream byte sequence delimits the returned line, and the
bytes after it are exactly what the new buffer and unread stream hold,
with the one-chunk buffer shape preserved. -/
theorem receive_line_frames (buffer recvs : List (List Nat))
    {msg rest : List Nat}
    (hb : buffer.length ≤ 1) (hne : ∀ c ∈ recvs, c ≠ [])
    (hm : 10 ∉ msg)
    (hs : buffer.flatten ++ recvs.flatten = msg ++ 10 :: rest) :
    ∃ buf' recvs', receive_line buffer recvs = .line msg buf' recvs' ∧
      buf'.flatten ++ recvs'.flatten = rest ∧ buf'.length ≤ 1 ∧
      (∀ c ∈ recvs', c ≠ []) := by
  match buffer with
  | [] =>
    rw [List.flatten_nil, List.nil_append] at hs
    obtain ⟨d, recvs', h1, h2, h3⟩ :=
      recvLoop_line recvs [] [] msg rest hne (by simp) (by simpa using hs) hm
    refine ⟨[d], recvs', ?_, ?_, by simp, h3⟩
    · simpa [receive_line, drainRev] using h1
    · simpa using h2
  | [b] =>
    rw [List.flatten_cons, List.flatten_nil, List.append_nil] at hs
    by_cases hmem : 10 ∈ b
    · -- the line is completed inside the buffered chunk
      obtain ⟨t, d, ht, hsplit⟩ :
          ∃ t d, 10 ∉ t ∧ b = t ++ 10 :: d :=
        ⟨b.take (idx10 b), b.drop (idx10 b + 1), idx10_take_not_mem b,
          (idx10_split b hmem).symm⟩
      have htd := idx10_take_drop_eq ht hsplit
      have hs' : t ++ 10 :: (d ++ recvs.flatten) = msg ++ 10 :: rest := by
        rw [← hs, hsplit]; simp
      obtain ⟨hmsg, hrest⟩ := nl_decomp_unique ht hm hs'
      refine ⟨[d], recvs, ?_, by simpa using hrest, by simp, hne⟩
      simp only [receive_line, List.reverse_cons, List.reverse_nil,
        List.nil_append, drainRev, hmem, if_true, htd.1, htd.2.1,
        List.flatten_cons, List.flatten_nil, List.append_nil, hmsg]
    · -- the buffered chunk holds no newline: it heads the accumulator
      obtain ⟨d, recvs', h1, h2, h3⟩ :=
        recvLoop_line recvs [b] [] msg rest hne (by simpa using hmem)
          (by simpa using hs) hm
      refine ⟨[d], recvs', ?_, by simpa using h2, by simp, h3⟩
      simpa [receive_line, drainRev, hmem] using h1
  | a :: b :: rest' => simp at hb

/-! ### Claim C1 -/

/-- Claim C1: for every delivery of a logical message split across
N physical reads (N ≥ 1, leftover buffer included) with the newline at
any byte offset, `receive_line` returns exactly the message before the
newline, and all bytes after that newline are retained verbatim in the
leftover buffer and delivered in order by subsequent `receive_line`
calls. -/
theorem claim_C1 (buffer recvs : List (List Nat)) (msg rest : List Nat)
    (hb : buffer.length ≤ 1) (hne : ∀ c ∈ recvs, c ≠ [])
    (hm : 10 ∉ msg)
    (hs : buffer.flatten ++ recvs.flatten = msg ++ 10 :: rest) :
    ∃ buf' recvs', receive_line buffer recvs = .line msg buf' recvs' ∧
      buf'.flatten ++ recvs'.flatten = rest ∧ buf'.length ≤ 1 ∧
      (∀ c ∈ recvs', c ≠ []) ∧
      (∀ msg2 rest2, 10 ∉ msg2 → rest = msg2 ++ 10 :: rest2 →
        ∃ buf'' recvs'', receive_line buf' recvs' = .line msg2 buf'' recvs'' ∧
          buf''.flatten ++ recvs''.flatten = rest2) := by
  obtain ⟨buf', recvs', h1, h2, h3, h4⟩ :=
    receive_line_frames buffer recvs hb hne hm hs
  refine ⟨buf', recvs', h1, h2, h3, h4, ?_⟩
  intro msg2 rest2 hm2 hr
  obtain ⟨buf'', recvs'', g1, g2, _, _⟩ :=
    receive_line_frames buf' recvs' h3 h4 hm2 (by rw [h2, hr])
  exact ⟨buf'', recvs'', g1, g2⟩

/-- Witness for claim C1: the stream `"he\nwo\n!"` delivered as the two
chunks `"he\nw"` and `"o\n!"` yields the line `"he"` first, with
`"wo\n!"` retained, and the second call yields `"wo"`. -/
theorem claim_C1_witness :
    ∃ buf' recvs',
      receive_line [] [[104, 101, 10, 119], [111, 10, 33]]
        = .line [104, 101] buf' recvs' ∧
      buf'.flatten ++ recvs'.flatten = [119, 111, 10, 33] ∧
      buf'.length ≤ 1 ∧ (∀ c ∈ recvs', c ≠ []) ∧
      (∀ msg2 rest2, 10 ∉ msg2 → [119, 111, 10, 33] = msg2 ++ 10 :: rest2 →
        ∃ buf'' recvs'', receive_line buf' recvs' = .line msg2 buf'' recvs'' ∧
          buf''.flatten ++ recvs''.flatten = rest2) :=
  claim_C1 [] [[104, 101, 10, 119], [111, 10, 33]] [104, 101] [119, 111, 10, 33]
    (by decide) (by decide) (by decide) (by decide)

/-! ### Claim C2 -/

/-- Running the recv loop into a zero-length read with no newline in
any earlier chunk raises `ConnectionBrokenException` with the buffer
it was handed. -/
theorem recvLoop_broken_run (pre : List (List Nat)) :
    ∀ post chunks bu, (∀ c ∈ pre, c ≠ []) → 10 ∉ pre.flatten →
    recvLoop bu chunks (pre ++ [] :: post) = .broken bu post := by
  induction pre with
  | nil => intro post chunks bu _ _; simp [recvLoop]
  | cons c pre' ih =>
    intro post chunks bu hne hnm
    have hc : c ≠ [] := hne c (List.mem_cons_self c pre')
    have hmem : 10 ∉ c := fun h => hnm (by
      rw [List.flatten_cons]; exact List.mem_append_left _ h)
    simp only [List.cons_append, recvLoop, hc, if_false, hmem, if_false]
    exact ih post (chunks ++ [c]) bu
      (fun x hx => hne x (List.mem_cons_of_mem c hx))
      (fun h => hnm (by
        rw [List.flatten_cons]; exact List.mem_append_right _ h))

/-- Claim C2: a zero-length read observed before any newline has been
found (in the buffered bytes or in the chunks read so far) makes
`receive_line` raise `ConnectionBrokenException`; it never returns a
partial, silently-truncated line. -/
theorem claim_C2 (buffer pre post : List (List Nat))
    (hb : buffer.length ≤ 1) (hne : ∀ c ∈ pre, c ≠ [])
    (hnb : 10 ∉ buffer.flatten) (hnp : 10 ∉ pre.flatten) :
    receive_line buffer (pre ++ [] :: post) = .broken [] post := by
  match buffer with
  | [] =>
    simp only [receive_line, List.reverse_nil, drainRev]
    exact recvLoop_broken_run pre post [] [] hne hnp
  | [b] =>
    have hmem : 10 ∉ b := by simpa using hnb
    simp only [receive_line, List.reverse_cons, List.reverse_nil,
      List.nil_append, drainRev, hmem, if_false]
    exact recvLoop_broken_run pre post ([] ++ [b]) [] hne hnp
  | a :: b :: rest' => simp at hb

/-- Witness for claim C2: a client that sends `"pa"` then `"rt"` and
closes causes `ConnectionBrokenException`, not a truncated line. -/
theorem claim_C2_witness :
    receive_line [] [[112, 97], [114, 116], []]
      = .broken [] [] :=
  claim_C2 [] [[112, 97], [114, 116]] [] (by decide) (by decide)
    (by decide) (by decide)

/-! ### Claim C10 -/

/-- The recv loop never modifies the buffer it was handed when it
raises `ConnectionBrokenException`. -/
theorem recvLoop_broken_bufferState (recvs : List (List Nat)) :
    ∀ chunks bu b' r', recvLoop bu chunks recvs = .broken b' r' → b' = bu := by
  induction recvs with
  | nil => intro chunks bu b' r' h; simp [recvLoop] at h
  | cons c rest ih =>
    intro chunks bu b' r' h
    by_cases hc : c = []
    · subst hc
      simp [recvLoop] at h
      exact h.1.symm
    · by_cases hmem : 10 ∈ c
      · simp [recvLoop, hc, hmem] at h
      · simp only [recvLoop, hc, if_false, hmem, if_false] at h
        exact ih _ bu b' r' h

/-- The drain loop exits normally only with the buffer emptied. -/
theorem drainRev_inr (revBuf : List (List Nat)) :
    ∀ chunks bu ch, drainRev revBuf chunks = .inr (bu, ch) → bu = [] := by
  induction revBuf with
  | nil =>
    intro chunks bu ch h
    simp [drainRev] at h
    exact h.1
  | cons c rest ih =>
    intro chunks bu ch h
    by_cases hmem : 10 ∈ c
    · simp [drainRev, hmem] at h
    · simp only [drainRev, hmem, if_false] at h
      exact ih _ bu ch h

/-- Claim C10: `receive_line` is not atomic on failure — whenever it
raises `ConnectionBrokenException`, the leftover buffer it leaves
behind is empty: the popped buffered bytes and the chunks read during
the call are discarded and not retained for any later call. -/
theorem claim_C10 (buffer recvs b' r' : List (List Nat))
    (h : receive_line buffer recvs = .broken b' r') : b' = [] := by
  unfold receive_line at h
  rcases hd : drainRev buffer.reverse [] with p | p
  · rw [hd] at h; simp at h
  · obtain ⟨bu, ch⟩ := p
    rw [hd] at h
    simp only at h
    rw [recvLoop_broken_bufferState recvs ch bu b' r' h]
    exact drainRev_inr buffer.reverse [] bu ch hd

/-- Witness for claim C10: a failing call that had popped the leftover
chunk `"h"` leaves the buffer empty. -/
theorem claim_C10_witness :
    receive_line [[104]] [[], [1]] = .broken [] [[1]] ∧
      ([] : List (List Nat)) = [] :=
  ⟨by decide, claim_C10 [[104]] [[], [1]] [] [[1]] (by decide)⟩

/-! ### Server state, connect and disconnect -/

/-- The mutable attributes of `Server` relevant to connection handling:
`client_socket` and `address` (both `None` until a client is accepted)
and the leftover `buffer`.  Sockets and addresses are identified by
numbers. -/
structure ServerState where
  client_socket : Option Nat := none
  address : Option Nat := none
  buffer : List (List Nat) := []
deriving DecidableEq, Repr

/-- `Server.connect`: accepting a client stores the new client socket
and peer address; nothing else of the state is touched. -/
def ServerState.connect (s : ServerState) (sock addr : Nat) : ServerState :=
  { s with client_socket := some sock, address := some addr }

/-- The socket system calls `disconnect` issues, in order. -/
inductive SockOp where
  | serverShutdown
  | serverClose
  | clientShutdown
  | clientClose
deriving DecidableEq, Repr

/-- A method call on a possibly-absent socket object: calling on `None`
is an error (Python would raise), otherwise the operation is recorded. -/
def callOn (sock : Option Nat) (op : SockOp) : Except Unit SockOp :=
  match sock with
  | none => .error ()
  | some _ => .ok op

/-- `Server.disconnect`: shut down and close the listening socket; if
`self.client_socket` is truthy, shut it down and close it too.  The
result is the trace of socket operations performed, or an error if a
call was made on an absent socket. -/
def Server.disconnect (server client : Option Nat) :
    Except Unit (List SockOp) := do
  let a ← callOn server .serverShutdown
  let b ← callOn server .serverClose
  if client.isSome then
    let c ← callOn client .clientShutdown
    let d ← callOn client .clientClose
    pure [a, b, c, d]
  else
    pure [a, b]

/-! ### Claim C8 -/

/-- Claim C8: `disconnect` shuts down and closes the listening socket,
and additionally shuts down and closes the client socket when one
exists; it raises no error even when no client connection exists. -/
theorem claim_C8 (server : Nat) (client : Option Nat) :
    Server.disconnect (some server) client
      = .ok ([.serverShutdown, .serverClose] ++
          if client.isSome then [.clientShutdown, .clientClose] else []) := by
  cases client with
  | none => rfl
  | some c => rfl

/-! ### Claim C9 -/

/-- Claim C9: accepting a new client connection leaves the leftover
buffer unchanged, so when the buffer still holds a full line from the
previous connection, the first `receive_line` of the new session
returns it without reading a single byte from the new client. -/
theorem claim_C9 (s : ServerState) (sock addr : Nat) :
    (s.connect sock addr).buffer = s.buffer ∧
    (∀ b msg rest recvs, s.buffer = [b] → 10 ∉ msg → b = msg ++ 10 :: rest →
      receive_line (s.connect sock addr).buffer recvs
        = .line msg [rest] recvs) := by
  refine ⟨rfl, ?_⟩
  intro b msg rest recvs hbuf hm hb
  have htd := idx10_take_drop_eq hm hb
  show receive_line s.buffer recvs = _
  rw [hbuf]
  simp only [receive_line, List.reverse_cons, List.reverse_nil,
    List.nil_append, drainRev, htd.2.2, if_true, htd.1, htd.2.1,
    List.nil_append, List.flatten_cons, List.flatten_nil, List.append_nil]

/-- Witness for claim C9: the leftover `"hi\nx"` from the previous
client is returned as the line `"hi"` on the new connection with no
byte read from it. -/
theorem claim_C9_witness :
    receive_line
        (ServerState.connect ⟨none, none, [[104, 105, 10, 120]]⟩ 7 9).buffer []
      = .line [104, 105] [[120]] [] :=
  (claim_C9 ⟨none, none, [[104, 105, 10, 120]]⟩ 7 9).2
    [104, 105, 10, 120] [104, 105] [120] [] rfl (by decide) rfl

/-! ### Sending -/

/-- Outcome of `send_line`: completion with the trace of byte segments
each `socket.send` call transmitted and the unused remainder of the
send oracle, a `ConnectionBrokenException`, or blocking because the
modelled oracle ran out. -/
inductive SendResult where
  | done (transmitted : List (List Nat)) (sends : List Nat)
  | broken (transmitted : List (List Nat))
  | blocked (transmitted : List (List Nat))
deriving DecidableEq, Repr

/-- The send loop of `send_line`: while fewer than `data.length` bytes
have been sent, call `socket.send` on the unsent suffix; the oracle
`sends` lists the byte count each call reports.  A reported count of 0
raises `ConnectionBrokenException`. -/
def sendLoop (data : List Nat) (total : Nat) (trans : List (List Nat))
    (sends : List Nat) : SendResult :=
  if total < data.length then
    match sends with
    | [] => .blocked trans
    | s :: rest =>
      if s = 0 then .broken trans
      else sendLoop data (total + s) (trans ++ [(data.drop total).take s]) rest
  else .done trans sends

/-- The newline-termination step of `send_line`: append a newline
unless the message already ends with one (Python
`if not msg.endswith("\n")`). -/
def terminateLine (msg : List Nat) : List Nat :=
  if msg.getLast? = some 10 then msg else msg ++ [10]

/-- `Server.send_line`, as a function of the message bytes and the
oracle of byte counts successive `socket.send` calls report. -/
def send_line (msg : List Nat) (sends : List Nat) : SendResult :=
  sendLoop (terminateLine msg) 0 [] sends

/-! ### Claim C3 -/

/-- Completion of the send loop means the transmitted segments, in
order, are exactly the unsent data: each iteration sends the reported
count off the front of the remaining suffix. -/
theorem sendLoop_done_flatten (sends : List Nat) :
    ∀ data total trans trans' rest',
    trans.flatten = data.take total →
    sendLoop data total trans sends = .done trans' rest' →
    trans'.flatten = data := by
  induction sends with
  | nil =>
    intro data total trans trans' rest' hinv h
    by_cases hlt : total < data.length
    · simp [sendLoop, hlt] at h
    · simp only [sendLoop, hlt, if_false, SendResult.done.injEq] at h
      rw [← h.1, hinv]
      exact List.take_of_length_le (Nat.le_of_not_lt hlt)
  | cons s rest ih =>
    intro data total trans trans' rest' hinv h
    by_cases hlt : total < data.length
    · by_cases hs : s = 0
      · simp [sendLoop, hlt, hs] at h
      · simp only [sendLoop, hlt, if_true, hs, if_false] at h
        refine ih data (total + s) _ trans' rest' ?_ h
        rw [List.flatten_append, List.flatten_cons, List.flatten_nil,
          List.append_nil, hinv, List.take_add]
    · simp only [sendLoop, hlt, if_false, SendResult.done.injEq] at h
      rw [← h.1, hinv]
      exact List.take_of_length_le (Nat.le_of_not_lt hlt)

/-- The send loop raises `ConnectionBrokenException` exactly when the
oracle reports a zero byte count at a moment when bytes remain
unsent. -/
theorem sendLoop_broken_iff (sends : List Nat) :
    ∀ data total trans,
    (∃ tr, sendLoop data total trans sends = .broken tr) ↔
      ∃ pre post, sends = pre ++ 0 :: post ∧ 0 ∉ pre ∧
        total + pre.sum < data.length := by
  induction sends with
  | nil =>
    intro data total trans
    constructor
    · rintro ⟨tr, h⟩
      by_cases hlt : total < data.length <;> simp [sendLoop, hlt] at h
    · rintro ⟨pre, post, habs, -, -⟩
      exact absurd habs (List.append_ne_nil_of_right_ne_nil pre (by simp)).symm
  | cons s rest ih =>
    intro data total trans
    by_cases hlt : total < data.length
    · by_cases hs : s = 0
      · subst hs
        constructor
        · intro _
          exact ⟨[], rest, rfl, by simp, by simpa using hlt⟩
        · intro _
          exact ⟨trans, by simp [sendLoop, hlt]⟩
      · simp only [sendLoop, hlt, if_true, hs, if_false]
        rw [ih data (total + s) (trans ++ [(data.drop total).take s])]
        constructor
        · rintro ⟨pre, post, hr, hnp, hsum⟩
          refine ⟨s :: pre, post, by simp [hr], ?_, by simp; omega⟩
          simp only [List.mem_cons, not_or]
          exact ⟨fun h => hs h.symm, hnp⟩
        · rintro ⟨pre, post, hr, hnp, hsum⟩
          cases pre with
          | nil => simp at hr; exact absurd hr.1 hs
          | cons p pre' =>
            simp only [List.cons_append, List.cons.injEq] at hr
            refine ⟨pre', post, hr.2, ?_, ?_⟩
            · exact fun h => hnp (List.mem_cons_of_mem p h)
            · rw [hr.1]
              simp only [List.sum_cons] at hsum
              omega
    · constructor
      · rintro ⟨tr, h⟩
        simp [sendLoop, hlt] at h
      · rintro ⟨pre, post, -, -, hsum⟩
        omega

/-- Claim C3: `send_line` appends exactly one newline when the message
does not already end with one and none when it does; on completion the
transmitted segments concatenate to exactly that terminated byte
sequence (the whole message is re-sent suffix by suffix until done);
and it raises `ConnectionBrokenException` iff some `socket.send`
reports zero bytes while bytes remain unsent. -/
theorem claim_C3 (msg sends : List Nat) :
    (msg.getLast? = some 10 →
      ∀ trans rest, send_line msg sends = .done trans rest →
        trans.flatten = msg) ∧
    (msg.getLast? ≠ some 10 →
      ∀ trans rest, send_line msg sends = .done trans rest →
        trans.flatten = msg ++ [10]) ∧
    ((∃ trans, send_line msg sends = .broken trans) ↔
      ∃ pre post, sends = pre ++ 0 :: post ∧ 0 ∉ pre ∧
        pre.sum < (terminateLine msg).length) := by
  refine ⟨?_, ?_, ?_⟩
  · intro hend trans rest h
    have := sendLoop_done_flatten sends (terminateLine msg) 0 [] trans rest
      (by simp) h
    rwa [terminateLine, hend, if_pos rfl] at this
  · intro hend trans rest h
    have := sendLoop_done_flatten sends (terminateLine msg) 0 [] trans rest
      (by simp) h
    rwa [terminateLine, if_neg hend] at this
  · rw [send_line]
    rw [sendLoop_broken_iff sends (terminateLine msg) 0 []]
    simp only [Nat.zero_add]

/-- Witness for claim C3: sending `"hi"` with one full write transmits
`"hi\n"`, and a zero-byte write after one byte raises
`ConnectionBrokenException`. -/
theorem claim_C3_witness :
    (([[104, 105, 10]] : List (List Nat)).flatten = [104, 105] ++ [10]) ∧
    (∃ trans, send_line [104, 105] [1, 0] = .broken trans) :=
  ⟨(claim_C3 [104, 105] [3]).2.1 (by decide) [[104, 105, 10]] [] (by decide),
   ((claim_C3 [104, 105] [1, 0]).2.2).mpr ⟨[1], [], rfl, by decide, by decide⟩⟩

/-! ### Claim C4 -/

/-- Outcome of `CompanionConsole.get_socket_input`: the token list
returned to the console together with the server state left behind
(buffer, unread recv stream, transmitted acknowledgement segments,
unused send oracle); a `ConnectionBrokenException`; or blocking. -/
inductive InputResult where
  | ok (tokens : List (List Nat)) (buffer recvs : List (List Nat))
      (ackTransmitted : List (List Nat)) (sends : List Nat)
  | connBroken
  | blocked
deriving DecidableEq, Repr

/-- The fixed acknowledgement text `"200/OK"` as bytes. -/
def ack200 : List Nat := [50, 48, 48, 47, 79, 75]

/-- `CompanionConsole.get_socket_input`: receive a line over the
socket, immediately send the fixed acknowledgement `"200/OK"`, and
return the received text split on single spaces. -/
def get_socket_input (buffer recvs : List (List Nat)) (sends : List Nat) :
    InputResult :=
  match receive_line buffer recvs with
  | .blocked => .blocked
  | .broken _ _ => .connBroken
  | .line msg buf' recvs' =>
    match send_line ack200 sends with
    | .blocked _ => .blocked
    | .broken _ => .connBroken
    | .done tr restS => .ok (splitOnByte 32 msg) buf' recvs' tr restS

/-- Claim C4: `get_socket_input` first receives a line, then sends the
acknowledgement `"200/OK"` — whose transmitted bytes are exactly
`"200/OK\n"` — regardless of the command's content, and returns the
received text split on single spaces; end to end, a client that sends
`"play song\n"` receives exactly `"200/OK\n"` and the consumer
receives the tokens `["play", "song"]`. -/
theorem claim_C4 (buffer recvs : List (List Nat)) (sends : List Nat)
    (msg : List Nat) (buf' recvs' trans : List (List Nat)) (rest : List Nat)
    (hrecv : receive_line buffer recvs = .line msg buf' recvs')
    (hsend : send_line ack200 sends = .done trans rest) :
    (get_socket_input buffer recvs sends
      = .ok (splitOnByte 32 msg) buf' recvs' trans rest) ∧
    trans.flatten = [50, 48, 48, 47, 79, 75, 10] ∧
    (get_socket_input [] [[112, 108, 97, 121, 32, 115, 111, 110, 103, 10]] [7]
      = .ok [[112, 108, 97, 121], [115, 111, 110, 103]] [[]] []
          [[50, 48, 48, 47, 79, 75, 10]] []) := by
  refine ⟨?_, ?_, by decide⟩
  · rw [get_socket_input, hrecv, hsend]
  · exact sendLoop_done_flatten sends (terminateLine ack200) 0 [] trans rest
      (by simp) hsend

/-- Witness for claim C4: running `get_socket_input` with the client
input `"play song\n"` and a single full acknowledgement write. -/
theorem claim_C4_witness :
    (get_socket_input [] [[112, 108, 97, 121, 32, 115, 111, 110, 103, 10]] [7]
      = .ok (splitOnByte 32 [112, 108, 97, 121, 32, 115, 111, 110, 103])
          [[]] [] [[50, 48, 48, 47, 79, 75, 10]] []) ∧
    ([[50, 48, 48, 47, 79, 75, 10]] : List (List Nat)).flatten
      = [50, 48, 48, 47, 79, 75, 10] ∧
    (get_socket_input [] [[112, 108, 97, 121, 32, 115, 111, 110, 103, 10]] [7]
      = .ok [[112, 108, 97, 121], [115, 111, 110, 103]] [[]] []
          [[50, 48, 48, 47, 79, 75, 10]] []) :=
  claim_C4 [] [[112, 108, 97, 121, 32, 115, 111, 110, 103, 10]] [7]
    [112, 108, 97, 121, 32, 115, 111, 110, 103] [[]] []
    [[50, 48, 48, 47, 79, 75, 10]] [] (by decide) (by decide)

/-! ### Claim C5 -/

/-- What one iteration of `CompanionConsole.start` encounters:
an OS-level interruption while awaiting `connect`, a session ending in
`ConnectionBrokenException`, a session ending in an `OSError`, or
`console.start` returning normally. -/
inductive IterEvent where
  | acceptInterrupted
  | sessionBroken
  | sessionOSError
  | sessionReturned
deriving DecidableEq, Repr

/-- The exception kinds visible to the start loop. -/
inductive Exn where
  | connectionBroken
  | osError
deriving DecidableEq, Repr

/-- `await self.server.connect()` under a given iteration event. -/
def connectStep : IterEvent → Except Exn Unit
  | .acceptInterrupted => .error .osError
  | _ => .ok ()

/-- `await self.console.start(self.get_socket_input)` under a given
iteration event (reached only when the connect succeeded). -/
def consoleRun : IterEvent → Except Exn Unit
  | .sessionBroken => .error .connectionBroken
  | .sessionOSError => .error .osError
  | _ => .ok ()

/-- The inner `except Server.ConnectionBrokenException` handler (it
logs and swallows exactly that exception). -/
def catchBroken (x : Except Exn Unit) : Except Exn Unit :=
  match x with
  | .error .connectionBroken => .ok ()
  | r => r

/-- The outer `except OSError` handler (it logs and swallows exactly
that exception). -/
def catchOSError (x : Except Exn Unit) : Except Exn Unit :=
  match x with
  | .error .osError => .ok ()
  | r => r

/-- The body of one `while self.console.online` iteration of `start`:
the outer try wraps the connect and the inner try; the inner try wraps
only the console session. -/
def iterBody (e : IterEvent) : Except Exn Unit :=
  catchOSError (do
    connectStep e
    catchBroken (consoleRun e))

/-- The `while self.console.online` loop of `CompanionConsole.start`:
`online i` is what the console reports before iteration `i`, `events i`
what iteration `i` encounters, and `fuel` bounds the modelled run.
`none` means the loop is still running when the fuel runs out;
`some (.ok n)` that the loop exited normally before iteration `n`;
`some (.error ex)` that exception `ex` escaped the loop. -/
def startRun (online : Nat → Bool) (events : Nat → IterEvent) :
    Nat → Nat → Option (Except Exn Nat)
  | 0, _ => none
  | fuel + 1, i =>
    if online i then
      match iterBody (events i) with
      | .error ex => some (.error ex)
      | .ok () => startRun online events fuel (i + 1)
    else some (.ok i)

/-- Every iteration body completes without an escaping exception: a
`ConnectionBrokenException` while serving and an `OSError` while
awaiting a connection are both caught and logged. -/
theorem iterBody_ok (e : IterEvent) : iterBody e = .ok () := by
  cases e <;> rfl

/-- Claim C5: while the owning console reports itself online, the
start loop never terminates on a broken connection or an interrupted
accept — whenever the modelled run finishes, it finished by the online
flag turning false, never by an escaping exception, and the flag was
true at every earlier iteration. -/
theorem claim_C5 (online : Nat → Bool) (events : Nat → IterEvent)
    (fuel i : Nat) (r : Except Exn Nat)
    (h : startRun online events fuel i = some r) :
    ∃ n, r = .ok n ∧ online n = false ∧
      ∀ m, i ≤ m → m < n → online m = true := by
  induction fuel generalizing i with
  | zero => simp [startRun] at h
  | succ fuel ih =>
    by_cases hon : online i
    · rw [startRun, if_pos hon, iterBody_ok (events i)] at h
      obtain ⟨n, hr, hoff, hall⟩ := ih (i + 1) h
      refine ⟨n, hr, hoff, ?_⟩
      intro m him hmn
      rcases Nat.eq_or_lt_of_le him with he | hlt
      · rwa [← he]
      · exact hall m hlt hmn
    · rw [startRun, if_neg hon] at h
      obtain rfl : (.ok i : Except Exn Nat) = r := by
        simpa using h
      exact ⟨i, rfl, Bool.of_not_eq_true hon, fun m him hmi => absurd him
        (Nat.not_le_of_lt hmi)⟩

/-- Witness for claim C5: a console that is online for three
iterations, each ending in a broken connection, exits the loop
normally at iteration 3. -/
theorem claim_C5_witness :
    ∃ n, (Except.ok 3 : Except Exn Nat) = .ok n ∧
      (fun k => decide (k < 3)) n = false ∧
      ∀ m, 0 ≤ m → m < n → (fun k => decide (k < 3)) m = true :=
  claim_C5 (fun k => decide (k < 3)) (fun _ => .sessionBroken) 5 0
    (.ok 3) (by rfl)

/-! ### Playlist (modelled from the spec) -/

/-- Modelled from the spec: the traversal mode of §3/§4.4
(sequential, loop, repeat).  The playlist implementation
`bot/playlist.py` is not under src/ — only its tests are — so the
playlist is modelled from the specification's words. -/
inductive Mode where
  | sequential
  | loop
  | repeatCurrent
deriving DecidableEq, Repr

/-- Modelled from the spec: the `Playlist` data model of §3 — an
append-only ordered sequence of items, a cursor (`none` meaning "not
started"), and a traversal mode (`bot/playlist.py` is missing from
src/). -/
structure Playlist (α : Type) where
  items : List α := []
  cursor : Option Nat := none
  mode : Mode := .sequential
deriving DecidableEq, Repr

/-- Modelled from the spec: `add(item)` appends to the end and does
not affect the cursor. -/
def Playlist.add {α : Type} (p : Playlist α) (item : α) : Playlist α :=
  { p with items := p.items ++ [item] }

/-- Modelled from the spec: `loop_mode()` is a pure mode switch. -/
def Playlist.loop_mode {α : Type} (p : Playlist α) : Playlist α :=
  { p with mode := .loop }

/-- Modelled from the spec: `repeat_mode()` is a pure mode switch. -/
def Playlist.repeat_mode {α : Type} (p : Playlist α) : Playlist α :=
  { p with mode := .repeatCurrent }

/-- Modelled from the spec: `next()` of §4.4 (`bot/playlist.py` is
missing from src/).  Sequential mode advances the cursor by one and
fails with `Exhausted` (`.error ()`) past the last index; loop mode
advances by one wrapping to index 0 after the last index; repeat mode
returns the item at the current cursor without advancing, except that
the first call advances from "not started" to index 0. -/
def Playlist.next {α : Type} (p : Playlist α) : Except Unit (α × Playlist α) :=
  match p.mode with
  | .sequential =>
    let c := match p.cursor with | none => 0 | some i => i + 1
    match p.items[c]? with
    | some x => .ok (x, { p with cursor := some c })
    | none => .error ()
  | .loop =>
    if p.items.length = 0 then .error ()
    else
      let c := (match p.cursor with | none => 0 | some i => i + 1)
        % p.items.length
      match p.items[c]? with
      | some x => .ok (x, { p with cursor := some c })
      | none => .error ()
  | .repeatCurrent =>
    match p.cursor with
    | none =>
      match p.items[0]? with
      | some x => .ok (x, { p with cursor := some 0 })
      | none => .error ()
    | some i =>
      match p.items[i]? with
      | some x => .ok (x, p)
      | none => .error ()

/-- Modelled from the spec: `prev()` of §4.4 (`bot/playlist.py` is
missing from src/).  Decrements the cursor by one and returns the item
now at that position; fails with `Exhausted` (`.error ()`) if the
cursor is already at index 0 or at "not started". -/
def Playlist.prev {α : Type} (p : Playlist α) : Except Unit (α × Playlist α) :=
  match p.cursor with
  | none => .error ()
  | some 0 => .error ()
  | some (i + 1) =>
    match p.items[i]? with
    | some x => .ok (x, { p with cursor := some i })
    | none => .error ()

/-! ### Claim C6 -/

/-- Claim C6: `next()` follows the mode-dependent successor rule —
sequentially, after `add "a"; add "b"; add "c"` three calls return
`"a", "b", "c"` and a fourth raises `Exhausted`, and in general the
cursor advances by one with `Exhausted` past the last index; loop mode
advances by one wrapping to 0 after the last index and is never
exhausted once an item exists; repeat mode returns the current item
without advancing, the first call advancing from "not started" to
index 0. -/
theorem claim_C6 {α : Type} (p : Playlist α) :
    (((((Playlist.mk [] none .sequential).add "a").add "b").add "c").next
        = .ok ("a", Playlist.mk ["a", "b", "c"] (some 0) .sequential) ∧
      (Playlist.mk ["a", "b", "c"] (some 0) Mode.sequential).next
        = .ok ("b", Playlist.mk ["a", "b", "c"] (some 1) .sequential) ∧
      (Playlist.mk ["a", "b", "c"] (some 1) Mode.sequential).next
        = .ok ("c", Playlist.mk ["a", "b", "c"] (some 2) .sequential) ∧
      (Playlist.mk ["a", "b", "c"] (some 2) Mode.sequential).next
        = .error ()) ∧
    (p.mode = .sequential → ∀ i, p.cursor = some i →
      (p.items.length ≤ i + 1 → p.next = .error ()) ∧
      (∀ x, p.items[i + 1]? = some x →
        p.next = .ok (x, { p with cursor := some (i + 1) }))) ∧
    (p.mode = .loop → p.items ≠ [] →
      (∃ x q, p.next = .ok (x, q)) ∧
      (∀ i, p.cursor = some i → i + 1 = p.items.length →
        ∀ x, p.items[0]? = some x →
          p.next = .ok (x, { p with cursor := some 0 }))) ∧
    (p.mode = .repeatCurrent →
      (∀ i x, p.cursor = some i → p.items[i]? = some x →
        p.next = .ok (x, p)) ∧
      (p.cursor = none → ∀ x, p.items[0]? = some x →
        p.next = .ok (x, { p with cursor := some 0 }))) := by
  refine ⟨⟨rfl, rfl, rfl, rfl⟩, ?_, ?_, ?_⟩
  · intro hm i hc
    constructor
    · intro hlen
      have : p.items[i + 1]? = none := by
        rw [List.getElem?_eq_none_iff]
        exact hlen
      simp only [Playlist.next, hm, hc, this]
    · intro x hx
      simp only [Playlist.next, hm, hc, hx]
  · intro hm hne
    have hlen : p.items.length ≠ 0 := by
      simpa [List.length_eq_zero] using hne
    constructor
    · have hmod : ((match p.cursor with | none => 0 | some i => i + 1)
          % p.items.length) < p.items.length :=
        Nat.mod_lt _ (Nat.pos_of_ne_zero hlen)
      obtain ⟨x, hx⟩ : ∃ x,
          p.items[(match p.cursor with | none => 0 | some i => i + 1)
            % p.items.length]? = some x :=
        ⟨_, List.getElem?_eq_getElem hmod⟩
      refine ⟨x, { p with cursor := some ((match p.cursor with
        | none => 0 | some i => i + 1) % p.items.length) }, ?_⟩
      simp only [Playlist.next, hm, hlen, if_false, hx]
    · intro i hc hilen x hx
      have hmod : (i + 1) % p.items.length = 0 := by
        rw [hilen, Nat.mod_self]
      simp only [Playlist.next, hm, hlen, if_false, hc, hmod, hx]
  · intro hm
    constructor
    · intro i x hc hx
      simp only [Playlist.next, hm, hc, hx]
    · intro hc x hx
      simp only [Playlist.next, hm, hc, hx]

/-- Witness for claim C6: in loop mode `["a", "b"]` wraps from the last
index back to `"a"`, and in repeat mode the current item is returned
without advancing. -/
theorem claim_C6_witness :
    (Playlist.mk ["a", "b"] (some 1) Mode.loop).next
      = .ok ("a", Playlist.mk ["a", "b"] (some 0) Mode.loop) ∧
    (Playlist.mk ["b", "c"] (some 0) Mode.repeatCurrent).next
      = .ok ("b", Playlist.mk ["b", "c"] (some 0) Mode.repeatCurrent) :=
  ⟨((claim_C6 (Playlist.mk ["a", "b"] (some 1) Mode.loop)).2.2.1 rfl
      (by decide)).2 1 rfl rfl "a" rfl,
   ((claim_C6 (Playlist.mk ["b", "c"] (some 0) Mode.repeatCurrent)).2.2.2
      rfl).1 0 "b" rfl rfl⟩

/-! ### Claim C7 -/

/-- Claim C7: `prev()` decrements the cursor by one and returns the
item now at that position, and fails with `Exhausted` exactly when the
cursor is already at index 0 or at "not started": after the very first
`next()` the `prev()` raises `Exhausted`; after two `next()` calls
`prev()` returns the previous item, and a second consecutive `prev()`
raises `Exhausted`. -/
theorem claim_C7 {α : Type} (p : Playlist α) :
    ((((Playlist.mk [] none .sequential).add "a").add "b").next
        = .ok ("a", Playlist.mk ["a", "b"] (some 0) .sequential) ∧
      (Playlist.mk ["a", "b"] (some 0) Mode.sequential).prev = .error () ∧
      (Playlist.mk ["a", "b"] (some 0) Mode.sequential).next
        = .ok ("b", Playlist.mk ["a", "b"] (some 1) .sequential) ∧
      (Playlist.mk ["a", "b"] (some 1) Mode.sequential).prev
        = .ok ("a", Playlist.mk ["a", "b"] (some 0) .sequential)) ∧
    (p.cursor = none → p.prev = .error ()) ∧
    (p.cursor = some 0 → p.prev = .error ()) ∧
    (∀ i x, p.cursor = some (i + 1) → p.items[i]? = some x →
      p.prev = .ok (x, { p with cursor := some i })) := by
  refine ⟨⟨rfl, rfl, rfl, rfl⟩, ?_, ?_, ?_⟩
  · intro hc
    simp only [Playlist.prev, hc]
  · intro hc
    simp only [Playlist.prev, hc]
  · intro i x hc hx
    simp only [Playlist.prev, hc, hx]

/-- Witness for claim C7: `prev()` at cursor 1 of `["a", "b"]` returns
`"a"`, and at cursor 0 or "not started" it raises `Exhausted`. -/
theorem claim_C7_witness :
    (Playlist.mk ["a", "b"] (some 1) Mode.sequential).prev
      = .ok ("a", Playlist.mk ["a", "b"] (some 0) Mode.sequential) ∧
    (Playlist.mk ["a", "b"] (some 0) Mode.sequential).prev = .error () ∧
    (Playlist.mk ["a", "b"] none Mode.sequential).prev = .error () :=
  ⟨(claim_C7 (Playlist.mk ["a", "b"] (some 1) Mode.sequential)).2.2.2
      0 "a" rfl rfl,
   (claim_C7 (Playlist.mk ["a", "b"] (some 0) Mode.sequential)).2.2.1 rfl,
   (claim_C7 (Playlist.mk ["a", "b"] none Mode.sequential)).2.1 rfl⟩
